import Mathlib

/-!
Verification development for the image-to-layout rasterization and
obstruction-synthesis engine of the z2a logo screensaver repository.

The definitions below are a shallow embedding of
`src/plugins/mock/apply_art.py` (the `main` command and its nested helper
functions) together with the route-layer list construction performed by
`ApplyArt.get_command` in `src/plugins/mock/librelane_plugin_mock/__init__.py`.

Modelling conventions:
- Python `int` values are `Int`; pixel coordinates and grid indices are `Nat`.
- Python floating point arithmetic (`area_pct / 100.0`, `round`, `int(...)`,
  `ImageStat.Stat(region).mean[0]`) is modelled exactly, as arithmetic over
  exact rationals. The executable definitions carry the rationals as integer
  numerator/denominator pairs and use truncated integer division (`Int.tdiv`
  is Python `int()`, which truncates toward zero); the functions `pyInt`,
  `pyRound` and `meanLum` state the same operations over `Rat`, and bridge
  lemmas below prove the executable forms equal to the `Rat` forms.
- `round` in Python 3 rounds halves to even; `roundHalfEven` and `pyRound`
  both implement that tie-breaking rule.
- The image is modelled after loading and the vertical flip performed by
  `ImageOps.flip`: `Img.pix x y` is the intensity of the flipped grayscale
  image, so claims about uniform images are unaffected by the flip.
- Python `rl.split(",")` and `p.strip()` are modelled character-exactly by
  `splitComma` and `pyStrip` (structural recursion over the character list).
- The `odb` binding and the Pillow import are modelled by availability flags
  in `Env`; the technology layer set is the list of resolvable layer names
  (`find_layer_by_name` succeeds exactly on members).
- Obstruction creation calls are collected as a list of `Req` values in
  emission order; `reader.design.writeDb` is the `dbWritten` flag; the
  `click.ClickException` aborts are the `error` field; the log lines relevant
  to the claims (the Pillow-missing line and the final placed-count line) are
  collected in `logs`.
-/

/-- Python `int()` applied to an exact rational: truncation toward zero. -/
def pyInt (q : ℚ) : ℤ := if q < 0 then Int.ceil q else Int.floor q

/-- Python `round()` applied to an exact rational: round half to even. -/
def pyRound (q : ℚ) : ℤ :=
  let f := Int.floor q
  if q - f < 1 / 2 then f
  else if q - f > 1 / 2 then f + 1
  else if f % 2 = 0 then f else f + 1

/-- Executable round-half-to-even of the ratio `a / b` of naturals
(`b = 0` yields 0, matching `pyRound` of the rational 0). -/
def roundHalfEven (a b : ℕ) : ℕ :=
  if b = 0 then 0
  else
    let q := a / b
    let r := a % b
    if 2 * r < b then q
    else if b < 2 * r then q + 1
    else if q % 2 = 0 then q else q + 1

/-- A rectangle in database units, as used for die and core bounding boxes
and for emitted obstruction geometry. -/
structure Rect where
  xMin : ℤ
  yMin : ℤ
  xMax : ℤ
  yMax : ℤ
deriving DecidableEq

/-- Containment of one rectangle in another, used to state that emitted
cell rectangles stay inside the target bounding box. -/
def rectInside (inner outer : Rect) : Prop :=
  outer.xMin ≤ inner.xMin ∧ inner.xMax ≤ outer.xMax ∧
  outer.yMin ≤ inner.yMin ∧ inner.yMax ≤ outer.yMax

instance (inner outer : Rect) : Decidable (rectInside inner outer) := by
  unfold rectInside
  infer_instance

/-- Blockage flavor recorded for a placement blockage request, following the
mode-dependent branches of `create_placement_blockage`: `soft` calls
`setSoft()`, `hard` clears softness and sets max density to zero, `plain`
is a bare `dbBlockage_create` (reachable only outside soft/hard modes). -/
inductive BlockKind where
  | soft
  | hard
  | plain
deriving DecidableEq

/-- An obstruction request dispatched to the layout database: either a
placement blockage (`dbBlockage_create`) or a routing obstruction on a
named layer (`dbObstruction_create`). -/
inductive Req where
  | place (kind : BlockKind) (r : Rect)
  | route (layer : String) (r : Rect)
deriving DecidableEq

/-- The rectangle carried by a request. -/
def Req.rect : Req → Rect
  | .place _ r => r
  | .route _ r => r

/-- Whether a request is a placement blockage. -/
def Req.isPlace : Req → Bool
  | .place _ _ => true
  | .route _ _ => false

/-- The blockage mode selected by the `--mode` option. -/
inductive Mode where
  | soft
  | hard
  | route
deriving DecidableEq

/-- A grayscale source image after the vertical flip: dimensions in pixels
and the per-pixel intensity (0..255). -/
structure Img where
  w : ℕ
  h : ℕ
  pix : ℕ → ℕ → ℕ

/-- The whitespace characters removed by Python `str.strip()`. -/
def pyIsSpace (c : Char) : Bool :=
  c = ' ' || c = '\t' || c = '\n' || c = '\r' || c = Char.ofNat 11 || c = Char.ofNat 12

/-- Python `str.strip()`: remove leading and trailing whitespace. -/
def pyStrip (s : String) : String :=
  ⟨((s.data.dropWhile pyIsSpace).reverse.dropWhile pyIsSpace).reverse⟩

/-- Worker for `splitComma`: accumulate the current (reversed) chunk. -/
def splitCommaAux (cur : List Char) : List Char → List (List Char)
  | [] => [cur.reverse]
  | c :: rest =>
    if c = ',' then cur.reverse :: splitCommaAux [] rest
    else splitCommaAux (c :: cur) rest

/-- Python `s.split(",")`: split on every comma, keeping empty chunks. -/
def splitComma (s : String) : List String :=
  (splitCommaAux [] s.data).map (fun l => ⟨l⟩)

/-- Splitting of one `--route-layers` value on commas with whitespace
stripping and removal of empty parts, from
`[p.strip() for p in rl.split(",") if p.strip()]`. -/
def splitCSV (s : String) : List String :=
  ((splitComma s).map pyStrip).filter (fun p => p ≠ "")

/-- Normalization of the configured route layers performed in `main`
(lines 113-118 of `apply_art.py`): the deprecated single `--route-layer`
value (when truthy) followed by the comma-split parts of every
`--route-layers` value, with no deduplication. -/
def normalizeRouteLayers (routeLayer : Option String) (routeLayers : List String) : List String :=
  (match routeLayer with
   | some rl => if rl = "" then [] else [rl]
   | none => []) ++ routeLayers.flatMap splitCSV

/-- Worker for `pyDedup`, keeping the first occurrence of each element and
remembering already seen elements. -/
def pyDedupAux (seen : List String) : List String → List String
  | [] => []
  | x :: xs =>
    if x ∈ seen then pyDedupAux seen xs
    else x :: pyDedupAux (x :: seen) xs

/-- Python `list(dict.fromkeys(...))`: deduplication keeping the first
occurrence of each element, in order, as performed on the collected
multi-layer list by `ApplyArt.get_command` (line 121 of the plugin). -/
def pyDedup (l : List String) : List String := pyDedupAux [] l

/-- The route-layer list reaching obstruction emission when the emitter is
invoked through the plugin: the plugin deduplicates its collected
multi-layer list and passes each name as a separate `--route-layers`
argument, the deprecated single layer (when set) is passed via
`--route-layer`, and `main` then concatenates both without deduplication. -/
def effectiveRouteLayers (routeLayer : Option String) (collected : List String) : List String :=
  normalizeRouteLayers routeLayer (pyDedup collected)

/-- The resolved configuration of one `main` invocation, after option
parsing. `image` is the loaded source image when an image path was supplied
and resolvable (image loading itself is external to the engine). -/
structure Cfg where
  image : Option Img
  grid : ℤ
  threshold : ℤ
  invert : Bool
  areaPct : ℚ
  mode : Mode
  routeLayer : Option String
  routeLayers : List String

/-- The normalized route layer list used by `main` for this configuration. -/
def Cfg.layerList (cfg : Cfg) : List String :=
  normalizeRouteLayers cfg.routeLayer cfg.routeLayers

/-- The execution environment of one run: availability of the `odb` binding
and of Pillow, the technology layer set, and the target bounding box (the
core box, or the die box when no core box is available). -/
structure Env where
  odbAvailable : Bool
  pillowAvailable : Bool
  tech : List String
  core : Rect

/-- Whether placement blockages are wanted:
`mode.lower() in ("soft", "hard")`. -/
def wantPlace (cfg : Cfg) : Bool :=
  decide (cfg.mode = Mode.soft) || decide (cfg.mode = Mode.hard)

/-- Whether routing obstructions are wanted:
`(mode.lower() == "route") or bool(route_layer_list)`. -/
def wantRoute (cfg : Cfg) : Bool :=
  decide (cfg.mode = Mode.route) || !cfg.layerList.isEmpty

/-- The clamped area scale `max(0.0, min(1.0, float(area_pct) / 100.0))`,
stated over `Rat`. -/
def clampScale (pct : ℚ) : ℚ := max 0 (min 1 (pct / 100))

/-- Numerator of the clamped area scale as an exact fraction
`scaleNum pct / scaleDen pct`. -/
def scaleNum (pct : ℚ) : ℤ :=
  if pct.num ≤ 0 then 0
  else if 100 * (pct.den : ℤ) ≤ pct.num then 1
  else pct.num

/-- Denominator of the clamped area scale as an exact fraction
`scaleNum pct / scaleDen pct`. -/
def scaleDen (pct : ℚ) : ℤ :=
  if pct.num ≤ 0 then 1
  else if 100 * (pct.den : ℤ) ≤ pct.num then 1
  else 100 * (pct.den : ℤ)

/-- Column count `cols = max(1, grid)`. -/
def colsOf (grid : ℤ) : ℤ := max 1 grid

/-- Derived row count `rows = max(1, int(round(ih * cols / iw)))`.
The product `ih * cols` is a natural number since `cols ≥ 1`. -/
def rowsOf (grid : ℤ) (iw ih : ℕ) : ℤ :=
  max 1 (roundHalfEven (ih * (colsOf grid).toNat) iw)

/-- Centering padding `int(len * (1.0 - scale) / 2)` for one axis:
with `scale = sn / sd`, this is the truncation of
`len * (sd - sn) / (2 * sd)`. -/
def padOf (len : ℤ) (pct : ℚ) : ℤ :=
  Int.tdiv (len * (scaleDen pct - scaleNum pct)) (2 * scaleDen pct)

/-- Cell size before the minimum clamp: `int(len * scale / n)`, i.e. the
truncation of `len * sn / (sd * n)`. -/
def rawCellOf (len : ℤ) (pct : ℚ) (n : ℤ) : ℤ :=
  Int.tdiv (len * scaleNum pct) (scaleDen pct * n)

/-- Cell size `max(1, int(len * scale / n))` for one axis. -/
def cellOf (len : ℤ) (pct : ℚ) (n : ℤ) : ℤ := max 1 (rawCellOf len pct n)

/-- The geometry plan derived in `main` (lines 159-173 of `apply_art.py`):
grid dimensions, the offset of the scaled region inside the target box, and
the per-cell physical size. -/
structure Plan where
  cols : ℕ
  rows : ℕ
  offX : ℤ
  offY : ℤ
  cellW : ℤ
  cellH : ℤ
deriving DecidableEq

/-- Construction of the geometry plan from the target box, area percentage,
requested column count and image dimensions. -/
def mkPlan (core : Rect) (areaPct : ℚ) (grid : ℤ) (iw ih : ℕ) : Plan :=
  { cols := (colsOf grid).toNat
    rows := (rowsOf grid iw ih).toNat
    offX := core.xMin + padOf (core.xMax - core.xMin) areaPct
    offY := core.yMin + padOf (core.yMax - core.yMin) areaPct
    cellW := cellOf (core.xMax - core.xMin) areaPct (colsOf grid)
    cellH := cellOf (core.yMax - core.yMin) areaPct (rowsOf grid iw ih) }

/-- The source-pixel crop window of a cell, by proportional division:
`x0 = int(c * iw / cols)`, `x1 = int((c + 1) * iw / cols)` and analogously
for rows (exact, since the quotients are truncated to integers). -/
structure Crop where
  x0 : ℕ
  x1 : ℕ
  y0 : ℕ
  y1 : ℕ
deriving DecidableEq

/-- Crop window of cell (r, c). -/
def cellCrop (img : Img) (plan : Plan) (r c : ℕ) : Crop :=
  { x0 := c * img.w / plan.cols
    x1 := (c + 1) * img.w / plan.cols
    y0 := r * img.h / plan.rows
    y1 := (r + 1) * img.h / plan.rows }

/-- Whether a cell is skipped as degenerate: `x1 <= x0 or y1 <= y0`. -/
def cellDegenerate (img : Img) (plan : Plan) (r c : ℕ) : Bool :=
  let cr := cellCrop img plan r c
  decide (cr.x1 ≤ cr.x0) || decide (cr.y1 ≤ cr.y0)

/-- Sum of the pixel intensities over a crop window. -/
def regionSum (img : Img) (cr : Crop) : ℕ :=
  ((List.range (cr.y1 - cr.y0)).map (fun dy =>
    ((List.range (cr.x1 - cr.x0)).map (fun dx =>
      img.pix (cr.x0 + dx) (cr.y0 + dy))).sum)).sum

/-- Number of pixels in a crop window. -/
def regionCount (cr : Crop) : ℕ := (cr.x1 - cr.x0) * (cr.y1 - cr.y0)

/-- Mean intensity `ImageStat.Stat(region).mean[0]` over a crop window,
stated over `Rat`. -/
def meanLum (img : Img) (cr : Crop) : ℚ :=
  (regionSum img cr : ℚ) / (regionCount cr : ℚ)

/-- Mean intensity of the crop window of cell (r, c). -/
def cellLum (img : Img) (plan : Plan) (r c : ℕ) : ℚ :=
  meanLum img (cellCrop img plan r c)

/-- Classification of a cell from the exact mean `sum / count`:
`on = lum >= threshold`, then `if invert: on = not on`. The comparison
`threshold <= sum / count` is carried out in cross-multiplied integer form
(`count` is positive whenever this is reached). -/
def classifyOn (threshold : ℤ) (invert : Bool) (sum count : ℕ) : Bool :=
  let b := decide (threshold * (count : ℤ) ≤ (sum : ℤ))
  if invert then !b else b

/-- Whether cell (r, c) passes both the degeneracy checks and the intensity
classification, and therefore triggers emission (the body after the two
`continue` statements in the grid loop). -/
def cellFires (cfg : Cfg) (img : Img) (plan : Plan) (r c : ℕ) : Bool :=
  let cr := cellCrop img plan r c
  if cr.x1 ≤ cr.x0 ∨ cr.y1 ≤ cr.y0 then false
  else if cr.x1 - cr.x0 = 0 ∨ cr.y1 - cr.y0 = 0 then false
  else classifyOn cfg.threshold cfg.invert (regionSum img cr) (regionCount cr)

/-- The physical rectangle of cell (r, c):
`(offset_x + c * cell_w, offset_y + r * cell_h, + cell_w, + cell_h)`. -/
def cellRect (plan : Plan) (r c : ℕ) : Rect :=
  let llx := plan.offX + (c : ℤ) * plan.cellW
  let lly := plan.offY + (r : ℤ) * plan.cellH
  { xMin := llx, yMin := lly, xMax := llx + plan.cellW, yMax := lly + plan.cellH }

/-- Model of `create_placement_blockage`: no-op when `odb` is unavailable,
otherwise one placement blockage request whose kind follows the mode. -/
def createPlacementBlockage (odbAvailable : Bool) (mode : Mode) (r : Rect) : List Req :=
  if odbAvailable then
    [Req.place
      (match mode with
       | .soft => BlockKind.soft
       | .hard => BlockKind.hard
       | .route => BlockKind.plain) r]
  else []

/-- Error message raised when a configured route layer is not found in the
technology layer set. -/
def layerNotFoundMsg (rl : String) : String :=
  "ApplyArt: route layer " ++ rl ++ " not found in tech"

/-- The per-layer loop of `create_route_obstruction`: resolve each layer in
order and create an obstruction, aborting at the first unresolvable layer.
The error carries the requests already created before the abort. -/
def routeObsLoop (tech : List String) (r : Rect) :
    List String → List Req → Except (String × List Req) (List Req)
  | [], acc => .ok acc
  | rl :: rest, acc =>
    if rl ∈ tech then routeObsLoop tech r rest (acc ++ [Req.route rl r])
    else .error (layerNotFoundMsg rl, acc)

/-- Model of `create_route_obstruction`: no-op when `odb` is unavailable or
no layers are configured, otherwise one obstruction per configured layer in
order, aborting with `layerNotFoundMsg` at the first unresolvable layer. -/
def createRouteObstruction (odbAvailable : Bool) (layers tech : List String) (r : Rect) :
    Except (String × List Req) (List Req) :=
  if odbAvailable = false then .ok []
  else if layers.isEmpty then .ok []
  else routeObsLoop tech r layers []

/-- Mutable state of the grid loop: the `placed` counter and the requests
dispatched so far, in emission order. -/
structure RunSt where
  placed : ℕ
  reqs : List Req
deriving DecidableEq

/-- Processing of one grid cell (the loop body of lines 181-212): skip when
the cell does not fire; otherwise emit the placement blockage when wanted,
then the routing obstructions when wanted (possibly aborting), then count
the cell in `placed`. -/
def processCell (env : Env) (cfg : Cfg) (img : Img) (plan : Plan) (st : RunSt)
    (rc : ℕ × ℕ) : Except (String × RunSt) RunSt :=
  if cellFires cfg img plan rc.1 rc.2 = false then .ok st
  else
    let rect := cellRect plan rc.1 rc.2
    let st1 : RunSt :=
      { st with
        reqs := st.reqs ++
          (if wantPlace cfg then createPlacementBlockage env.odbAvailable cfg.mode rect
           else []) }
    if wantRoute cfg then
      match createRouteObstruction env.odbAvailable cfg.layerList env.tech rect with
      | .ok created => .ok { placed := st1.placed + 1, reqs := st1.reqs ++ created }
      | .error (msg, created) => .error (msg, { st1 with reqs := st1.reqs ++ created })
    else .ok { st1 with placed := st1.placed + 1 }

/-- The grid loop over a list of cells: process cells in order, stopping at
the first abort and keeping the state (including all requests already
dispatched) at that point. -/
def runCells (env : Env) (cfg : Cfg) (img : Img) (plan : Plan) :
    List (ℕ × ℕ) → RunSt → RunSt × Option String
  | [], st => (st, none)
  | rc :: rest, st =>
    match processCell env cfg img plan st rc with
    | .ok st2 => runCells env cfg img plan rest st2
    | .error (msg, st2) => (st2, some msg)

/-- All grid cells in iteration order: rows outer, columns inner, both
increasing. -/
def allCells (plan : Plan) : List (ℕ × ℕ) :=
  (List.range plan.rows).flatMap (fun r => (List.range plan.cols).map (fun c => (r, c)))

/-- Error message raised when no image is provided. -/
def noImageMsg : String :=
  "ApplyArt: no image provided (set TT_ART_IMAGE or pass --image)"

/-- Log line printed when Pillow is unavailable. -/
def pillowMissingLog : String :=
  "[ApplyArt] ERROR: Pillow not available in container"

/-- Summary line reporting the placed count. -/
def placedLog (n : ℕ) : String :=
  "[ApplyArt] Placed " ++ toString n ++ " placement blockages from image"

/-- Observable outcome of one run: requests dispatched to the database, the
reported placed count (when the summary line was reached), whether
`reader.design.writeDb` was invoked, the abort message (when any), and the
claim-relevant log lines. -/
structure RunResult where
  reqs : List Req
  placed : Option ℕ
  dbWritten : Bool
  error : Option String
  logs : List String
deriving DecidableEq

/-- The image-processing path of `main`: abort when no image is configured;
degrade to a pure write-back when Pillow is unavailable; otherwise derive
the plan, run the grid loop, report the placed count and write the database
back (the write-back is skipped when the loop aborts, since the exception
propagates before line 230). -/
def mainRun (env : Env) (cfg : Cfg) : RunResult :=
  match cfg.image with
  | none =>
    { reqs := [], placed := none, dbWritten := false, error := some noImageMsg, logs := [] }
  | some img =>
    if env.pillowAvailable = false then
      { reqs := [], placed := none, dbWritten := true, error := none,
        logs := [pillowMissingLog] }
    else
      let plan := mkPlan env.core cfg.areaPct cfg.grid img.w img.h
      match runCells env cfg img plan (allCells plan) ⟨0, []⟩ with
      | (st, none) =>
        { reqs := st.reqs, placed := some st.placed, dbWritten := true, error := none,
          logs := [placedLog st.placed] }
      | (st, some msg) =>
        { reqs := st.reqs, placed := none, dbWritten := false, error := some msg,
          logs := [] }

/-! ## Basic facts about the grid loop -/

-- A cell that does not fire leaves the loop state unchanged.
lemma processCell_not_fires {env : Env} {cfg : Cfg} {img : Img} {plan : Plan}
    {st : RunSt} {rc : ℕ × ℕ} (h : cellFires cfg img plan rc.1 rc.2 = false) :
    processCell env cfg img plan st rc = .ok st := by
  simp [processCell, h]

-- With the odb binding unavailable, the whole grid loop succeeds and
-- dispatches no request at all.
lemma runCells_odb_off (env : Env) (cfg : Cfg) (img : Img) (plan : Plan)
    (hodb : env.odbAvailable = false) :
    ∀ (cells : List (ℕ × ℕ)) (st : RunSt),
      (runCells env cfg img plan cells st).2 = none ∧
      (runCells env cfg img plan cells st).1.reqs = st.reqs := by
  intro cells
  induction cells with
  | nil => intro st; exact ⟨rfl, rfl⟩
  | cons rc rest ih =>
    intro st
    by_cases hf : cellFires cfg img plan rc.1 rc.2 = false
    · simpa [runCells, processCell_not_fires hf] using ih st
    · have hft : cellFires cfg img plan rc.1 rc.2 = true := by
        revert hf; cases cellFires cfg img plan rc.1 rc.2 <;> simp
      have hp : processCell env cfg img plan st rc =
          .ok { placed := st.placed + 1, reqs := st.reqs } := by
        simp only [processCell, hft, hodb, createRouteObstruction, createPlacementBlockage]
        split <;> simp_all
      simpa [runCells, hp] using ih { placed := st.placed + 1, reqs := st.reqs }

/-! ## Concrete scenarios used by witnesses and counterexamples -/

/-- A fully white one-pixel image. -/
def imgWhite : Img := { w := 1, h := 1, pix := fun _ _ => 255 }

/-- Environment with the odb binding unavailable and one resolvable layer. -/
def envNoOdb : Env :=
  { odbAvailable := false, pillowAvailable := true, tech := ["met1"],
    core := ⟨0, 0, 100, 100⟩ }

/-- Configuration requesting routing obstructions on an unknown layer. -/
def cfgMet99 : Cfg :=
  { image := some imgWhite, grid := 1, threshold := 128, invert := false,
    areaPct := 100, mode := Mode.route, routeLayer := none, routeLayers := ["met99"] }

/-- Environment with Pillow unavailable. -/
def envNoPillow : Env :=
  { odbAvailable := true, pillowAvailable := false, tech := [],
    core := ⟨0, 0, 100, 100⟩ }

/-- A plain soft-mode configuration with an image. -/
def cfgWithImage : Cfg :=
  { image := some imgWhite, grid := 40, threshold := 128, invert := false,
    areaPct := 20, mode := Mode.soft, routeLayer := none, routeLayers := [] }

/-- The soft-mode configuration without any image. -/
def cfgNoImage : Cfg := { cfgWithImage with image := none }

/-! ## Claim C10 -/

/-- C10: when the layout-database binding module is unavailable, both
obstruction-creation helpers return immediately without doing anything
(`create_placement_blockage` creates nothing, `create_route_obstruction`
succeeds with no creations for any layer list and any technology, so layer
name resolution is skipped), and a full run over an image completes
successfully with no requests and the database written back, even when the
configured routing layer name is unknown. -/
theorem c10_odb_unavailable (env : Env) (cfg : Cfg) (img : Img)
    (hodb : env.odbAvailable = false) :
    (∀ mode r, createPlacementBlockage env.odbAvailable mode r = []) ∧
    (∀ layers tech r, createRouteObstruction env.odbAvailable layers tech r = .ok []) ∧
    (cfg.image = some img → env.pillowAvailable = true →
      (mainRun env cfg).error = none ∧ (mainRun env cfg).dbWritten = true ∧
      (mainRun env cfg).reqs = []) := by
  refine ⟨?_, ?_, ?_⟩
  · intro mode r
    simp [createPlacementBlockage, hodb]
  · intro layers tech r
    simp [createRouteObstruction, hodb]
  · intro himg hpil
    have h := runCells_odb_off env cfg img (mkPlan env.core cfg.areaPct cfg.grid img.w img.h)
      hodb (allCells (mkPlan env.core cfg.areaPct cfg.grid img.w img.h)) ⟨0, []⟩
    rcases hrun : runCells env cfg img (mkPlan env.core cfg.areaPct cfg.grid img.w img.h)
      (allCells (mkPlan env.core cfg.areaPct cfg.grid img.w img.h)) ⟨0, []⟩ with ⟨st, err⟩
    rw [hrun] at h
    obtain ⟨h1, h2⟩ := h
    simp only at h1 h2
    subst h1
    simp [mainRun, himg, hpil, hrun, h2]

/-- Witness for C10: a concrete run with `odb` unavailable and the unknown
layer "met99" configured completes successfully. -/
theorem c10_odb_unavailable_witness :
    (mainRun envNoOdb cfgMet99).error = none ∧
    (mainRun envNoOdb cfgMet99).dbWritten = true ∧
    (mainRun envNoOdb cfgMet99).reqs = [] := by
  exact (c10_odb_unavailable envNoOdb cfgMet99 imgWhite rfl).2.2 rfl rfl

/-! ## Claim C8 -/

/-- C8: when the image-decoding library is unavailable but an image was
supplied, the run logs the condition, performs the final database write-back
with no obstruction added, and terminates successfully without an error. -/
theorem c8_pillow_unavailable (env : Env) (cfg : Cfg) (img : Img)
    (himg : cfg.image = some img) (hpil : env.pillowAvailable = false) :
    mainRun env cfg =
      { reqs := [], placed := none, dbWritten := true, error := none,
        logs := [pillowMissingLog] } := by
  simp [mainRun, himg, hpil]

/-- Witness for C8 at a concrete environment and configuration. -/
theorem c8_pillow_unavailable_witness :
    mainRun envNoPillow cfgWithImage =
      { reqs := [], placed := none, dbWritten := true, error := none,
        logs := [pillowMissingLog] } :=
  c8_pillow_unavailable envNoPillow cfgWithImage imgWhite rfl rfl

/-! ## Claim C9 -/

/-- C9: when no image is supplied, the run aborts with the configuration
error before any database mutation: no request is dispatched and the
database write-back is never invoked. -/
theorem c9_no_image_aborts (env : Env) (cfg : Cfg) (himg : cfg.image = none) :
    mainRun env cfg =
      { reqs := [], placed := none, dbWritten := false, error := some noImageMsg,
        logs := [] } := by
  simp [mainRun, himg]

/-- Witness for C9 at a concrete environment and configuration. -/
theorem c9_no_image_aborts_witness :
    mainRun envNoPillow cfgNoImage =
      { reqs := [], placed := none, dbWritten := false, error := some noImageMsg,
        logs := [] } :=
  c9_no_image_aborts envNoPillow cfgNoImage rfl

/-! ## Claim C6 -/

/-- Scenario plan: a 1x1 grid filling a 100x100 target box. -/
def planUnit : Plan := mkPlan ⟨0, 0, 100, 100⟩ 100 1 1 1

/-- Environment with the two layers met1 and met2 resolvable. -/
def envTwoLayers : Env :=
  { odbAvailable := true, pillowAvailable := true, tech := ["met1", "met2"],
    core := ⟨0, 0, 100, 100⟩ }

/-- Soft mode with no explicit layers. -/
def cfgSoftOnly : Cfg :=
  { image := some imgWhite, grid := 1, threshold := 128, invert := false,
    areaPct := 100, mode := Mode.soft, routeLayer := none, routeLayers := [] }

/-- Route mode with exactly met1 and met2 configured. -/
def cfgRouteTwo : Cfg :=
  { cfgSoftOnly with mode := Mode.route, routeLayers := ["met1", "met2"] }

/-- C6: with the database binding available, a firing cell emits, in soft
mode with no explicit layers, exactly one placement-blockage request (tagged
soft) and zero routing requests; and in route mode with exactly the
resolvable layers met1 and met2, exactly two routing-obstruction requests
(one per layer, in order) and zero placement requests. -/
theorem c6_mode_emission (env : Env) (cfg : Cfg) (img : Img) (plan : Plan)
    (r c : ℕ) (st : RunSt) (hodb : env.odbAvailable = true)
    (hfire : cellFires cfg img plan r c = true) :
    (cfg.mode = Mode.soft → cfg.layerList = [] →
      processCell env cfg img plan st (r, c) =
        .ok { placed := st.placed + 1,
              reqs := st.reqs ++ [Req.place BlockKind.soft (cellRect plan r c)] }) ∧
    (cfg.mode = Mode.route → cfg.layerList = ["met1", "met2"] →
      "met1" ∈ env.tech → "met2" ∈ env.tech →
      processCell env cfg img plan st (r, c) =
        .ok { placed := st.placed + 1,
              reqs := st.reqs ++ [Req.route "met1" (cellRect plan r c),
                                  Req.route "met2" (cellRect plan r c)] }) := by
  constructor
  · intro hmode hll
    have hwp : wantPlace cfg = true := by simp [wantPlace, hmode]
    have hwr : wantRoute cfg = false := by simp [wantRoute, hmode, hll]
    simp [processCell, hfire, hwp, hwr, createPlacementBlockage, hodb, hmode]
  · intro hmode hll h1 h2
    have hwp : wantPlace cfg = false := by simp [wantPlace, hmode]
    have hwr : wantRoute cfg = true := by simp [wantRoute, hmode]
    simp [processCell, hfire, hwp, hwr, createRouteObstruction, hll, hodb,
      routeObsLoop, h1, h2]

/-- Witness for C6: both scenarios evaluated on a concrete firing cell. -/
theorem c6_mode_emission_witness :
    processCell envTwoLayers cfgSoftOnly imgWhite planUnit ⟨0, []⟩ (0, 0) =
      .ok { placed := 1, reqs := [Req.place BlockKind.soft (cellRect planUnit 0 0)] } ∧
    processCell envTwoLayers cfgRouteTwo imgWhite planUnit ⟨0, []⟩ (0, 0) =
      .ok { placed := 1, reqs := [Req.route "met1" (cellRect planUnit 0 0),
                                  Req.route "met2" (cellRect planUnit 0 0)] } := by
  constructor
  · have h := (c6_mode_emission envTwoLayers cfgSoftOnly imgWhite planUnit 0 0 ⟨0, []⟩
      rfl (by decide)).1 rfl (by decide)
    simpa using h
  · have h := (c6_mode_emission envTwoLayers cfgRouteTwo imgWhite planUnit 0 0 ⟨0, []⟩
      rfl (by decide)).2 rfl (by decide) (by decide) (by decide)
    simpa using h

/-! ## Claim C3 -/

-- Membership in the deduplication worker result.
lemma mem_pyDedupAux : ∀ (l seen : List String) (a : String),
    a ∈ pyDedupAux seen l ↔ (a ∈ l ∧ a ∉ seen) := by
  intro l
  induction l with
  | nil => simp [pyDedupAux]
  | cons x xs ih =>
    intro seen a
    by_cases hx : x ∈ seen
    · rw [pyDedupAux, if_pos hx, ih]
      constructor
      · rintro ⟨ha, hs⟩
        exact ⟨List.mem_cons_of_mem _ ha, hs⟩
      · rintro ⟨ha, hs⟩
        rcases List.mem_cons.mp ha with rfl | ha
        · exact absurd hx hs
        · exact ⟨ha, hs⟩
    · rw [pyDedupAux, if_neg hx]
      rw [List.mem_cons, ih]
      constructor
      · rintro (rfl | ⟨ha, hs⟩)
        · exact ⟨List.mem_cons_self _ _, hx⟩
        · refine ⟨List.mem_cons_of_mem _ ha, fun hs2 => hs ?_⟩
          exact List.mem_cons_of_mem _ hs2
      · rintro ⟨ha, hs⟩
        rcases List.mem_cons.mp ha with rfl | ha
        · exact Or.inl rfl
        · by_cases hax : a = x
          · exact Or.inl hax
          · exact Or.inr ⟨ha, by simp [List.mem_cons, hax, hs]⟩

-- The deduplication worker result is a sublist of its input.
lemma pyDedupAux_sublist : ∀ (l seen : List String), List.Sublist (pyDedupAux seen l) l := by
  intro l
  induction l with
  | nil => intro seen; simp [pyDedupAux]
  | cons x xs ih =>
    intro seen
    by_cases hx : x ∈ seen
    · rw [pyDedupAux, if_pos hx]
      exact (ih seen).trans (List.sublist_cons_self x xs)
    · rw [pyDedupAux, if_neg hx]
      exact (ih (x :: seen)).cons₂ x

-- The deduplication worker result has no duplicates.
lemma pyDedupAux_nodup : ∀ (l seen : List String), (pyDedupAux seen l).Nodup := by
  intro l
  induction l with
  | nil => intro seen; simp [pyDedupAux]
  | cons x xs ih =>
    intro seen
    by_cases hx : x ∈ seen
    · rw [pyDedupAux, if_pos hx]
      exact ih seen
    · rw [pyDedupAux, if_neg hx]
      refine List.nodup_cons.mpr ⟨fun hmem => ?_, ih (x :: seen)⟩
      exact ((mem_pyDedupAux xs (x :: seen) x).mp hmem).2 (List.mem_cons_self _ _)

-- Comma-splitting is the identity on a list of plain layer names.
lemma flatMap_splitCSV_id : ∀ l : List String, (∀ s ∈ l, splitCSV s = [s]) →
    l.flatMap splitCSV = l := by
  intro l
  induction l with
  | nil => intro _; rfl
  | cons x xs ih =>
    intro h
    rw [List.flatMap_cons, h x (List.mem_cons_self _ _),
      ih (fun s hs => h s (List.mem_cons_of_mem _ hs))]
    rfl

/-- C3 counterexample: combining the deprecated single-layer option with the
multi-layer option is not deduplicated, even through the plugin path (the
plugin deduplicates only its collected multi-layer list): with
`--route-layer met1` and collected layers `["met1"]`, the emission list is
`["met1", "met1"]`, which has a duplicate. This refutes the claim that the
emission list contains no duplicates for every combination of the two
options. -/
theorem c3_counterexample :
    effectiveRouteLayers (some "met1") ["met1"] = ["met1", "met1"] ∧
    ¬ (effectiveRouteLayers (some "met1") ["met1"]).Nodup := by
  exact ⟨by decide, by decide⟩

/-- C3 (amended): the deduplication with order of first appearance preserved
applies to the plugin-collected multi-layer list only. When the deprecated
single-layer option is absent and every collected entry is a plain name
(splitting to itself), the emission list is exactly the deduplicated
collected list: it has no duplicates, is a sublist of the collected list
(order of first appearance preserved), and contains exactly the collected
names. With the deprecated option set, its value is prepended without
deduplication. -/
theorem c3_amended (collected : List String)
    (hsingle : ∀ s ∈ collected, splitCSV s = [s]) :
    effectiveRouteLayers none collected = pyDedup collected ∧
    (pyDedup collected).Nodup ∧
    List.Sublist (pyDedup collected) collected ∧
    (∀ a, a ∈ pyDedup collected ↔ a ∈ collected) := by
  have hmem : ∀ a, a ∈ pyDedup collected ↔ a ∈ collected := by
    intro a
    simpa [pyDedup] using mem_pyDedupAux collected [] a
  refine ⟨?_, pyDedupAux_nodup _ _, pyDedupAux_sublist _ _, hmem⟩
  show ([] : List String) ++ (pyDedup collected).flatMap splitCSV = pyDedup collected
  rw [List.nil_append]
  exact flatMap_splitCSV_id _ (fun s hs => hsingle s ((hmem s).mp hs))

/-- Witness for C3 (amended): a concrete collected list with a repeat. -/
theorem c3_amended_witness :
    effectiveRouteLayers none ["met1", "met2", "met1"] = pyDedup ["met1", "met2", "met1"] ∧
    (pyDedup ["met1", "met2", "met1"]).Nodup := by
  have h := c3_amended ["met1", "met2", "met1"] (by decide)
  exact ⟨h.1, h.2.1⟩

/-! ## Claim C1 -/

-- A firing cell that is processed successfully increments the placed
-- counter by exactly one, whether or not any placement blockage was made.
lemma processCell_ok_placed {env : Env} {cfg : Cfg} {img : Img} {plan : Plan}
    {st st2 : RunSt} {rc : ℕ × ℕ}
    (hfire : cellFires cfg img plan rc.1 rc.2 = true)
    (hp : processCell env cfg img plan st rc = .ok st2) :
    st2.placed = st.placed + 1 := by
  rw [processCell] at hp
  rw [if_neg (by simp [hfire])] at hp
  by_cases hwr : wantRoute cfg = true
  · rw [if_pos hwr] at hp
    rcases hro : createRouteObstruction env.odbAvailable cfg.layerList env.tech
      (cellRect plan rc.1 rc.2) with e | created
    · rcases e with ⟨msg, created⟩
      rw [hro] at hp
      exact absurd hp (by simp)
    · rw [hro] at hp
      have := Except.ok.inj hp
      rw [← this]
  · rw [if_neg hwr] at hp
    have := Except.ok.inj hp
    rw [← this]

-- In a successful run, the final placed counter counts exactly the cells
-- that fired.
lemma runCells_placed (env : Env) (cfg : Cfg) (img : Img) (plan : Plan) :
    ∀ (cells : List (ℕ × ℕ)) (st : RunSt),
      (runCells env cfg img plan cells st).2 = none →
      (runCells env cfg img plan cells st).1.placed =
        st.placed + (cells.filter (fun rc => cellFires cfg img plan rc.1 rc.2)).length := by
  intro cells
  induction cells with
  | nil => intro st _; simp [runCells]
  | cons rc rest ih =>
    intro st hok
    by_cases hf : cellFires cfg img plan rc.1 rc.2 = false
    · rw [runCells, processCell_not_fires hf] at hok ⊢
      rw [ih st hok]
      simp [List.filter_cons, hf]
    · have hft : cellFires cfg img plan rc.1 rc.2 = true := by
        revert hf; cases cellFires cfg img plan rc.1 rc.2 <;> simp
      rcases hp : processCell env cfg img plan st rc with e | st2
      · rcases e with ⟨msg, stE⟩
        rw [runCells, hp] at hok
        exact absurd hok (by simp)
      · rw [runCells, hp] at hok ⊢
        rw [ih st2 hok, processCell_ok_placed hft hp]
        simp [List.filter_cons, hft]
        omega

/-- Environment for a routing-only run: odb available, met1 resolvable. -/
def envRouteOnly : Env :=
  { odbAvailable := true, pillowAvailable := true, tech := ["met1"],
    core := ⟨0, 0, 100, 100⟩ }

/-- Routing-only configuration: route mode with the single layer met1. -/
def cfgRouteOnly : Cfg :=
  { image := some imgWhite, grid := 1, threshold := 128, invert := false,
    areaPct := 100, mode := Mode.route, routeLayer := none, routeLayers := ["met1"] }

/-- C1 counterexample: in a routing-only run over a white one-pixel image,
the reported placed count is 1 while zero placement blockages were produced,
so the reported count does not equal the number of cells that produced at
least one placement blockage. -/
theorem c1_counterexample :
    (mainRun envRouteOnly cfgRouteOnly).placed = some 1 ∧
    ((mainRun envRouteOnly cfgRouteOnly).reqs.filter Req.isPlace).length = 0 ∧
    (mainRun envRouteOnly cfgRouteOnly).placed ≠
      some (((mainRun envRouteOnly cfgRouteOnly).reqs.filter Req.isPlace).length) := by
  exact ⟨by decide, by decide, by decide⟩

/-- C1 (amended): in a run over an image that completes without an abort,
the reported placed count equals the number of non-degenerate cells that
classified on (the cells for which emission was attempted), regardless of
whether those cells produced any placement blockage. -/
theorem c1_placed_counts_firing_cells (env : Env) (cfg : Cfg) (img : Img)
    (himg : cfg.image = some img) (hpil : env.pillowAvailable = true)
    (hok : (mainRun env cfg).error = none) :
    (mainRun env cfg).placed =
      some (((allCells (mkPlan env.core cfg.areaPct cfg.grid img.w img.h)).filter
        (fun rc => cellFires cfg img (mkPlan env.core cfg.areaPct cfg.grid img.w img.h)
          rc.1 rc.2)).length) := by
  have hplaced := runCells_placed env cfg img (mkPlan env.core cfg.areaPct cfg.grid img.w img.h)
    (allCells (mkPlan env.core cfg.areaPct cfg.grid img.w img.h)) ⟨0, []⟩
  rcases hrun : runCells env cfg img (mkPlan env.core cfg.areaPct cfg.grid img.w img.h)
    (allCells (mkPlan env.core cfg.areaPct cfg.grid img.w img.h)) ⟨0, []⟩ with ⟨st, err⟩
  rw [hrun] at hplaced
  cases err with
  | none =>
    simp only [mainRun, himg, hpil, hrun] at hok ⊢
    simp only [eq_self_iff_true, forall_true_left] at hplaced
    rw [hplaced]
    simp
  | some msg =>
    simp [mainRun, himg, hpil, hrun] at hok

/-- Witness for C1 (amended): the routing-only run reports a placed count
equal to its number of firing cells. -/
theorem c1_placed_counts_firing_cells_witness :
    (mainRun envRouteOnly cfgRouteOnly).placed =
      some (((allCells (mkPlan envRouteOnly.core cfgRouteOnly.areaPct cfgRouteOnly.grid
        imgWhite.w imgWhite.h)).filter
        (fun rc => cellFires cfgRouteOnly imgWhite
          (mkPlan envRouteOnly.core cfgRouteOnly.areaPct cfgRouteOnly.grid
            imgWhite.w imgWhite.h) rc.1 rc.2)).length) :=
  c1_placed_counts_firing_cells envRouteOnly cfgRouteOnly imgWhite rfl rfl (by decide)

/-! ## Claim C4 -/

-- The per-layer loop aborts at the first unresolvable layer, naming it,
-- and keeps every obstruction created before the abort.
lemma routeObsLoop_error_of_missing (tech : List String) (r : Rect) :
    ∀ (layers : List String) (acc : List Req), (∃ rl ∈ layers, rl ∉ tech) →
      ∃ rl acc2, routeObsLoop tech r layers acc = .error (layerNotFoundMsg rl, acc2) ∧
        rl ∈ layers ∧ rl ∉ tech ∧ ∃ t, acc2 = acc ++ t := by
  intro layers
  induction layers with
  | nil =>
    rintro acc ⟨rl, h, _⟩
    cases h
  | cons l ls ih =>
    rintro acc ⟨rl, hrl, hmiss⟩
    by_cases hl : l ∈ tech
    · have hrl2 : ∃ x ∈ ls, x ∉ tech := by
        rcases List.mem_cons.mp hrl with rfl | h
        · exact absurd hl hmiss
        · exact ⟨rl, h, hmiss⟩
      obtain ⟨x, acc2, heq, hm, hmiss2, t, ht⟩ := ih (acc ++ [Req.route l r]) hrl2
      refine ⟨x, acc2, ?_, List.mem_cons_of_mem _ hm, hmiss2,
        [Req.route l r] ++ t, by rw [ht, List.append_assoc]⟩
      rw [routeObsLoop, if_pos hl]
      exact heq
    · refine ⟨l, acc, ?_, List.mem_cons_self _ _, hl, [], by simp⟩
      rw [routeObsLoop, if_neg hl]

-- A nonempty layer list makes routing output wanted, whatever the mode.
lemma wantRoute_of_layers_ne_nil {cfg : Cfg} (h : cfg.layerList ≠ []) :
    wantRoute cfg = true := by
  simp [wantRoute, List.isEmpty_iff, h]

-- Processing a firing cell with a missing layer aborts, naming a missing
-- layer, and the requests dispatched before the abort extend the prior ones.
lemma processCell_error_of_missing {env : Env} {cfg : Cfg} {img : Img} {plan : Plan}
    {st : RunSt} {rc : ℕ × ℕ}
    (hodb : env.odbAvailable = true)
    (hmiss : ∃ rl ∈ cfg.layerList, rl ∉ env.tech)
    (hfire : cellFires cfg img plan rc.1 rc.2 = true) :
    ∃ rl st2, processCell env cfg img plan st rc = .error (layerNotFoundMsg rl, st2) ∧
      rl ∈ cfg.layerList ∧ rl ∉ env.tech ∧ ∃ t, st2.reqs = st.reqs ++ t := by
  have hne : cfg.layerList ≠ [] := by
    rintro h
    rcases hmiss with ⟨rl, hrl, _⟩
    rw [h] at hrl
    cases hrl
  have hwr := wantRoute_of_layers_ne_nil hne
  obtain ⟨rl, acc2, heq, hm, hmiss2, t, ht⟩ :=
    routeObsLoop_error_of_missing env.tech (cellRect plan rc.1 rc.2) cfg.layerList [] hmiss
  have hro : createRouteObstruction env.odbAvailable cfg.layerList env.tech
      (cellRect plan rc.1 rc.2) = .error (layerNotFoundMsg rl, acc2) := by
    rw [createRouteObstruction, if_neg (by simp [hodb]),
      if_neg (by simp [List.isEmpty_iff, hne])]
    exact heq
  refine ⟨rl,
    { placed := st.placed,
      reqs := (st.reqs ++ (if wantPlace cfg then
        createPlacementBlockage env.odbAvailable cfg.mode (cellRect plan rc.1 rc.2)
        else [])) ++ acc2 }, ?_, hm, hmiss2,
    (if wantPlace cfg then
      createPlacementBlockage env.odbAvailable cfg.mode (cellRect plan rc.1 rc.2)
      else []) ++ t, by simp [ht]⟩
  rw [processCell, if_neg (by simp [hfire]), if_pos hwr, hro]

-- The grid loop, started from any state, aborts at the first firing cell
-- when a configured layer is missing, and the state at the abort keeps all
-- previously dispatched requests as a prefix.
lemma runCells_error_of_missing (env : Env) (cfg : Cfg) (img : Img) (plan : Plan)
    (hodb : env.odbAvailable = true)
    (hmiss : ∃ rl ∈ cfg.layerList, rl ∉ env.tech) :
    ∀ (cells : List (ℕ × ℕ)) (st0 : RunSt),
      (∃ rc ∈ cells, cellFires cfg img plan rc.1 rc.2 = true) →
      ∃ rl stE, runCells env cfg img plan cells st0 = (stE, some (layerNotFoundMsg rl)) ∧
        rl ∈ cfg.layerList ∧ rl ∉ env.tech ∧ ∃ t, stE.reqs = st0.reqs ++ t := by
  intro cells
  induction cells with
  | nil =>
    rintro st0 ⟨rc, h, _⟩
    cases h
  | cons rc rest ih =>
    rintro st0 ⟨rc0, hrc0, hfire0⟩
    by_cases hf : cellFires cfg img plan rc.1 rc.2 = true
    · obtain ⟨rl, st2, hpc, hm, hms, t, ht⟩ :=
        @processCell_error_of_missing env cfg img plan st0 rc hodb hmiss hf
      exact ⟨rl, st2, by rw [runCells, hpc], hm, hms, t, ht⟩
    · have hff : cellFires cfg img plan rc.1 rc.2 = false := by
        revert hf; cases cellFires cfg img plan rc.1 rc.2 <;> simp
      have hrest : ∃ x ∈ rest, cellFires cfg img plan x.1 x.2 = true := by
        rcases List.mem_cons.mp hrc0 with rfl | h
        · rw [hfire0] at hff; cases hff
        · exact ⟨rc0, h, hfire0⟩
      obtain ⟨rl, stE, heq, hm, hms, t, ht⟩ := ih st0 hrest
      exact ⟨rl, stE, by rw [runCells, processCell_not_fires hff]; exact heq,
        hm, hms, t, ht⟩

/-- C4: with the database binding available and some configured routing
layer unresolvable, processing any cell list containing a firing cell
aborts with an error whose message names a missing configured layer (the
layer is never silently skipped), and all requests dispatched before the
abort remain (the prior state requests are a prefix of the final ones, no
rollback); consequently a full run over an image with a firing cell ends
with that configuration error and without the database write-back. -/
theorem c4_unknown_layer_aborts (env : Env) (cfg : Cfg) (img : Img)
    (hodb : env.odbAvailable = true)
    (hmiss : ∃ rl ∈ cfg.layerList, rl ∉ env.tech) :
    (∀ (plan : Plan) (cells : List (ℕ × ℕ)) (st0 : RunSt),
      (∃ rc ∈ cells, cellFires cfg img plan rc.1 rc.2 = true) →
      ∃ rl stE, runCells env cfg img plan cells st0 = (stE, some (layerNotFoundMsg rl)) ∧
        rl ∈ cfg.layerList ∧ rl ∉ env.tech ∧ ∃ t, stE.reqs = st0.reqs ++ t) ∧
    (cfg.image = some img → env.pillowAvailable = true →
      (∃ rc ∈ allCells (mkPlan env.core cfg.areaPct cfg.grid img.w img.h),
        cellFires cfg img (mkPlan env.core cfg.areaPct cfg.grid img.w img.h)
          rc.1 rc.2 = true) →
      ∃ rl, rl ∈ cfg.layerList ∧ rl ∉ env.tech ∧
        (mainRun env cfg).error = some (layerNotFoundMsg rl) ∧
        (mainRun env cfg).dbWritten = false) := by
  constructor
  · exact fun plan => runCells_error_of_missing env cfg img plan hodb hmiss
  · intro himg hpil hfire
    obtain ⟨rl, stE, heq, hm, hms, _⟩ :=
      runCells_error_of_missing env cfg img
        (mkPlan env.core cfg.areaPct cfg.grid img.w img.h) hodb hmiss
        (allCells (mkPlan env.core cfg.areaPct cfg.grid img.w img.h)) ⟨0, []⟩ hfire
    exact ⟨rl, hm, hms, by simp [mainRun, himg, hpil, heq],
      by simp [mainRun, himg, hpil, heq]⟩

/-- Witness for C4: the unknown layer met99 aborts a concrete run with the
message naming met99, and the database is not written back. -/
theorem c4_unknown_layer_aborts_witness :
    (mainRun envRouteOnly cfgMet99).error = some (layerNotFoundMsg "met99") ∧
    (mainRun envRouteOnly cfgMet99).dbWritten = false := by
  obtain ⟨rl, hm, hms, herr, hdb⟩ :=
    (c4_unknown_layer_aborts envRouteOnly cfgMet99 imgWhite rfl
      ⟨"met99", by decide, by decide⟩).2 rfl rfl ⟨(0, 0), by decide, by decide⟩
  have hll : cfgMet99.layerList = ["met99"] := by decide
  rw [hll] at hm
  rw [List.mem_singleton.mp hm] at herr
  exact ⟨herr, hdb⟩


/-! ## Claim C5 -/

-- The executable round-half-to-even on a ratio of naturals agrees with
-- Python round of the exact rational quotient.
lemma roundHalfEven_eq_pyRound (a b : ℕ) :
    (roundHalfEven a b : ℤ) = pyRound ((a : ℚ) / (b : ℚ)) := by
  by_cases hb : b = 0
  · subst hb
    norm_num [roundHalfEven, pyRound]
  · have hb0 : 0 < b := Nat.pos_of_ne_zero hb
    have hbq : (0 : ℚ) < (b : ℚ) := by exact_mod_cast hb0
    have hfloor : ⌊(a : ℚ) / (b : ℚ)⌋ = ((a / b : ℕ) : ℤ) := by
      have h := Rat.floor_intCast_div_natCast (a : ℤ) b
      rw [Int.natCast_div]
      simpa using h
    have hsum : ((a / b : ℕ) : ℚ) * (b : ℚ) + ((a % b : ℕ) : ℚ) = (a : ℚ) := by
      exact_mod_cast congrArg (Nat.cast : ℕ → ℚ) (Nat.div_add_mod' a b)
    have hfrac : (a : ℚ) / (b : ℚ) - ((⌊(a : ℚ) / (b : ℚ)⌋ : ℤ) : ℚ) =
        ((a % b : ℕ) : ℚ) / (b : ℚ) := by
      rw [hfloor, Int.cast_natCast, eq_div_iff (ne_of_gt hbq), sub_mul,
        div_mul_cancel₀ _ (ne_of_gt hbq)]
      linarith [hsum]
    have e1 : ((a : ℚ) / (b : ℚ) - ((⌊(a : ℚ) / (b : ℚ)⌋ : ℤ) : ℚ) < 1 / 2) ↔
        2 * (a % b) < b := by
      rw [hfrac, div_lt_div_iff₀ hbq (by norm_num : (0 : ℚ) < 2), one_mul]
      constructor <;> intro h
      · have h2 : (a % b) * 2 < b := by exact_mod_cast h
        omega
      · have h2 : (a % b) * 2 < b := by omega
        exact_mod_cast h2
    have e2 : ((a : ℚ) / (b : ℚ) - ((⌊(a : ℚ) / (b : ℚ)⌋ : ℤ) : ℚ) > 1 / 2) ↔
        b < 2 * (a % b) := by
      rw [hfrac, gt_iff_lt, div_lt_div_iff₀ (by norm_num : (0 : ℚ) < 2) hbq, one_mul]
      constructor <;> intro h
      · have h2 : b < (a % b) * 2 := by exact_mod_cast h
        omega
      · have h2 : b < (a % b) * 2 := by omega
        exact_mod_cast h2
    have e3 : (⌊(a : ℚ) / (b : ℚ)⌋ % 2 = 0) ↔ (a / b) % 2 = 0 := by
      rw [hfloor]
      omega
    rw [pyRound, roundHalfEven, if_neg hb]
    by_cases h1 : 2 * (a % b) < b
    · rw [if_pos h1, if_pos (e1.mpr h1)]
      exact hfloor.symm
    · rw [if_neg h1, if_neg (fun hc => h1 (e1.mp hc))]
      by_cases h2 : b < 2 * (a % b)
      · rw [if_pos h2, if_pos (e2.mpr h2)]
        push_cast [hfloor]
        ring
      · rw [if_neg h2, if_neg (fun hc => h2 (e2.mp hc))]
        by_cases h3 : (a / b) % 2 = 0
        · rw [if_pos h3, if_pos (e3.mpr h3)]
          exact hfloor.symm
        · rw [if_neg h3, if_neg (fun hc => h3 (e3.mp hc))]
          push_cast [hfloor]
          ring

/-- Row count formula as worded by the claim: the requested column count is
clamped to a minimum of 1, and the derived row count is
`max(1, round(H * cols / W))`. -/
def rowsSpec (W H : ℕ) (requested : ℤ) : ℤ :=
  max 1 (pyRound ((H : ℚ) * ((max 1 requested : ℤ) : ℚ) / (W : ℚ)))

/-- C5: for every image width and height at least 1 and every requested
column count, the row count derived by the plan equals
`max(1, round(H * cols / W))` with `cols = max(1, requested)`, where round
is the rounding of the exact quotient used by the code. -/
theorem c5_rows_formula (core : Rect) (pct : ℚ) (grid : ℤ) (iw ih : ℕ)
    (hw : 1 ≤ iw) (hh : 1 ≤ ih) :
    ((mkPlan core pct grid iw ih).rows : ℤ) = rowsSpec iw ih grid := by
  have h1 : (1 : ℤ) ≤ rowsOf grid iw ih := le_max_left _ _
  have hcast : ((mkPlan core pct grid iw ih).rows : ℤ) = rowsOf grid iw ih := by
    show ((rowsOf grid iw ih).toNat : ℤ) = rowsOf grid iw ih
    omega
  rw [hcast, rowsOf, rowsSpec]
  congr 1
  rw [roundHalfEven_eq_pyRound]
  congr 1
  have hg : (0 : ℤ) ≤ colsOf grid := le_trans zero_le_one (le_max_left _ _)
  have htn : (((colsOf grid).toNat : ℕ) : ℚ) = ((max 1 grid : ℤ) : ℚ) := by
    rw [← Int.cast_natCast, Int.toNat_of_nonneg hg]
    rfl
  push_cast [htn]
  ring

/-- Witness for C5 at a concrete 3x2 image with 4 requested columns. -/
theorem c5_rows_formula_witness :
    ((mkPlan ⟨0, 0, 100, 100⟩ 100 4 3 2).rows : ℤ) = rowsSpec 3 2 4 :=
  c5_rows_formula ⟨0, 0, 100, 100⟩ 100 4 3 2 (by norm_num) (by norm_num)

/-! ## Claim C7 -/

-- The region sum over a constant image is the pixel count times the value.
lemma regionSum_const (img : Img) (v : ℕ) (h : ∀ x y, img.pix x y = v) (cr : Crop) :
    regionSum img cr = regionCount cr * v := by
  unfold regionSum regionCount
  have hrow : ∀ y : ℕ,
      ((List.range (cr.x1 - cr.x0)).map (fun dx => img.pix (cr.x0 + dx) (cr.y0 + y))).sum
        = (cr.x1 - cr.x0) * v := by
    intro y
    have hfun : (fun dx => img.pix (cr.x0 + dx) (cr.y0 + y)) = (fun _ : ℕ => v) :=
      funext fun dx => h _ _
    rw [hfun, List.map_const', List.sum_const_nat, List.length_range]
  have houter : (List.range (cr.y1 - cr.y0)).map (fun dy =>
      ((List.range (cr.x1 - cr.x0)).map (fun dx => img.pix (cr.x0 + dx) (cr.y0 + dy))).sum)
      = (List.range (cr.y1 - cr.y0)).map (fun _ => (cr.x1 - cr.x0) * v) :=
    List.map_congr_left fun dy _ => hrow dy
  rw [houter, List.map_const', List.sum_const_nat, List.length_range]
  ring

-- On a non-degenerate cell, firing is exactly the threshold classification
-- of the region sum and count.
lemma cellFires_eq_classify {cfg : Cfg} {img : Img} {plan : Plan} {r c : ℕ}
    (hnd : cellDegenerate img plan r c = false) :
    cellFires cfg img plan r c =
      classifyOn cfg.threshold cfg.invert (regionSum img (cellCrop img plan r c))
        (regionCount (cellCrop img plan r c)) := by
  simp only [cellDegenerate, Bool.or_eq_false_iff, decide_eq_false_iff_not, not_le] at hnd
  obtain ⟨hx, hy⟩ := hnd
  rw [cellFires, if_neg (by omega), if_neg (by omega)]

-- The integer cross-multiplied classification agrees with comparing the
-- threshold against the exact rational mean.
lemma classifyOn_eq_mean (t : ℤ) (inv : Bool) (s cnt : ℕ) (h : cnt ≠ 0) :
    classifyOn t inv s cnt = ((decide ((t : ℚ) ≤ (s : ℚ) / (cnt : ℚ))).xor inv) := by
  have hpos : (0 : ℚ) < (cnt : ℚ) := by exact_mod_cast Nat.pos_of_ne_zero h
  have hiff : ((t : ℚ) ≤ (s : ℚ) / (cnt : ℚ)) ↔ (t * (cnt : ℤ) ≤ (s : ℤ)) := by
    rw [le_div_iff₀ hpos]
    exact_mod_cast Iff.rfl
  rw [classifyOn]
  rw [show decide (t * (cnt : ℤ) ≤ (s : ℤ)) = decide ((t : ℚ) ≤ (s : ℚ) / (cnt : ℚ)) from
    decide_eq_decide.mpr hiff.symm]
  cases inv <;> simp

/-- C7: on every non-degenerate cell, the cell fires exactly when the mean
intensity of its source-pixel crop region is at least the threshold, XOR the
invert flag; consequently on a fully white image with threshold 128 and no
inversion every non-degenerate cell fires, on a fully black image none
fires, and flipping the invert flag flips the outcome of every
non-degenerate cell. -/
theorem c7_classification (cfg : Cfg) (img : Img) (plan : Plan) (r c : ℕ)
    (hnd : cellDegenerate img plan r c = false) :
    (cellFires cfg img plan r c =
      ((decide ((cfg.threshold : ℚ) ≤ cellLum img plan r c)).xor cfg.invert)) ∧
    ((∀ x y, img.pix x y = 255) → cfg.threshold = 128 → cfg.invert = false →
      cellFires cfg img plan r c = true) ∧
    ((∀ x y, img.pix x y = 0) → cfg.threshold = 128 → cfg.invert = false →
      cellFires cfg img plan r c = false) ∧
    (cellFires { cfg with invert := !cfg.invert } img plan r c =
      !(cellFires cfg img plan r c)) := by
  have hnd2 := hnd
  simp only [cellDegenerate, Bool.or_eq_false_iff, decide_eq_false_iff_not, not_le] at hnd2
  obtain ⟨hx, hy⟩ := hnd2
  have hcnt : regionCount (cellCrop img plan r c) ≠ 0 := by
    unfold regionCount
    exact Nat.mul_ne_zero (by omega) (by omega)
  have hcnt1 : 1 ≤ regionCount (cellCrop img plan r c) := Nat.pos_of_ne_zero hcnt
  refine ⟨?_, ?_, ?_, ?_⟩
  · rw [cellFires_eq_classify hnd, classifyOn_eq_mean _ _ _ _ hcnt]
    rfl
  · intro hwhite hthr hinv
    rw [cellFires_eq_classify hnd, regionSum_const img 255 hwhite, hthr, hinv, classifyOn]
    have hle : (128 : ℤ) * (regionCount (cellCrop img plan r c) : ℤ) ≤
        ((regionCount (cellCrop img plan r c) * 255 : ℕ) : ℤ) := by
      push_cast
      omega
    simp [hle]
    omega
  · intro hblack hthr hinv
    rw [cellFires_eq_classify hnd, regionSum_const img 0 hblack, hthr, hinv, classifyOn]
    have hgt : ¬ ((128 : ℤ) * (regionCount (cellCrop img plan r c) : ℤ) ≤
        ((regionCount (cellCrop img plan r c) * 0 : ℕ) : ℤ)) := by
      push_cast
      omega
    simp [hgt]
    omega
  · rw [cellFires_eq_classify hnd, cellFires_eq_classify hnd, classifyOn, classifyOn]
    cases cfg.invert <;> simp

/-- Witness for C7: the single cell of a white one-pixel image on the unit
plan fires with the default threshold and no inversion. -/
theorem c7_classification_witness :
    cellFires cfgSoftOnly imgWhite planUnit 0 0 = true :=
  (c7_classification cfgSoftOnly imgWhite planUnit 0 0 (by decide)).2.1
    (fun _ _ => rfl) rfl rfl

/-! ## Claim C2 -/

-- The clamped scale fraction is in [0, 1] with a positive denominator.
lemma scaleNum_nonneg (pct : ℚ) : 0 ≤ scaleNum pct := by
  unfold scaleNum
  split_ifs <;> omega

lemma scaleDen_pos (pct : ℚ) : 0 < scaleDen pct := by
  have hd : (0 : ℤ) < (pct.den : ℤ) := by exact_mod_cast pct.pos
  unfold scaleDen
  split_ifs <;> omega

lemma scaleNum_le_scaleDen (pct : ℚ) : scaleNum pct ≤ scaleDen pct := by
  unfold scaleNum scaleDen
  split_ifs <;> omega

-- Truncated division of a nonnegative integer by a positive one
-- underapproximates the exact quotient.
lemma tdiv_bound {x d : ℤ} (hx : 0 ≤ x) (hd : 0 < d) : (Int.tdiv x d) * d ≤ x := by
  rw [Int.tdiv_eq_ediv hx (le_of_lt hd)]
  exact Int.ediv_mul_le x (ne_of_gt hd)

-- One axis of the containment argument: when the unclamped cell size is at
-- least 1, all n cells starting at the padded offset stay within [a, b].
lemma axisContained (a b : ℤ) (pct : ℚ) (n : ℤ) (hab : a ≤ b) (hn : 1 ≤ n)
    (hcell : 1 ≤ rawCellOf (b - a) pct n) (c : ℕ) (hc : (c : ℤ) < n) :
    a ≤ a + padOf (b - a) pct + (c : ℤ) * cellOf (b - a) pct n ∧
    a + padOf (b - a) pct + ((c : ℤ) + 1) * cellOf (b - a) pct n ≤ b := by
  have hsn := scaleNum_nonneg pct
  have hsd := scaleDen_pos pct
  have hss := scaleNum_le_scaleDen pct
  have hL0 : (0 : ℤ) ≤ b - a := by omega
  have hpad0 : 0 ≤ padOf (b - a) pct :=
    Int.tdiv_nonneg (mul_nonneg hL0 (by omega)) (by omega)
  have hpadle : padOf (b - a) pct * (2 * scaleDen pct) ≤
      (b - a) * (scaleDen pct - scaleNum pct) :=
    tdiv_bound (mul_nonneg hL0 (by omega)) (by omega)
  have hcellmax : cellOf (b - a) pct n = rawCellOf (b - a) pct n := max_eq_right hcell
  have hcelle : rawCellOf (b - a) pct n * (scaleDen pct * n) ≤ (b - a) * scaleNum pct :=
    tdiv_bound (mul_nonneg hL0 hsn) (mul_pos hsd (by omega))
  have hLsn : (b - a) * scaleNum pct ≤ (b - a) * scaleDen pct :=
    mul_le_mul_of_nonneg_left hss hL0
  have hstep : padOf (b - a) pct * (2 * scaleDen pct) +
      2 * (rawCellOf (b - a) pct n * (scaleDen pct * n)) ≤ (b - a) * (2 * scaleDen pct) :=
    calc padOf (b - a) pct * (2 * scaleDen pct) +
        2 * (rawCellOf (b - a) pct n * (scaleDen pct * n))
        ≤ (b - a) * (scaleDen pct - scaleNum pct) + 2 * ((b - a) * scaleNum pct) := by
          linarith [hpadle, hcelle]
      _ = (b - a) * scaleDen pct + (b - a) * scaleNum pct := by ring
      _ ≤ (b - a) * scaleDen pct + (b - a) * scaleDen pct := by linarith [hLsn]
      _ = (b - a) * (2 * scaleDen pct) := by ring
  have hfin : (padOf (b - a) pct + n * rawCellOf (b - a) pct n) * (2 * scaleDen pct) ≤
      (b - a) * (2 * scaleDen pct) := by
    calc (padOf (b - a) pct + n * rawCellOf (b - a) pct n) * (2 * scaleDen pct)
        = padOf (b - a) pct * (2 * scaleDen pct) +
          2 * (rawCellOf (b - a) pct n * (scaleDen pct * n)) := by ring
      _ ≤ (b - a) * (2 * scaleDen pct) := hstep
  have key : padOf (b - a) pct + n * rawCellOf (b - a) pct n ≤ b - a :=
    le_of_mul_le_mul_right hfin (by omega)
  have hcprod : 0 ≤ (c : ℤ) * rawCellOf (b - a) pct n :=
    mul_nonneg (by positivity) (by omega)
  have hmono : ((c : ℤ) + 1) * rawCellOf (b - a) pct n ≤ n * rawCellOf (b - a) pct n :=
    mul_le_mul_of_nonneg_right (by omega) (by omega)
  rw [hcellmax]
  constructor
  · linarith [hpad0, hcprod]
  · linarith [key, hmono]

/-- Environment whose target box is a tiny 2x2-unit core. -/
def envTinyCore : Env :=
  { odbAvailable := true, pillowAvailable := true, tech := [], core := ⟨0, 0, 2, 2⟩ }

/-- Soft-mode configuration with 3 requested columns at 100 percent area. -/
def cfgTinyCore : Cfg :=
  { image := some imgWhite, grid := 3, threshold := 128, invert := false,
    areaPct := 100, mode := Mode.soft, routeLayer := none, routeLayers := [] }

/-- C2 counterexample: with the area percentage 100 (inside [0, 100]), a
2x2-unit target box and a 3x3 grid, the cell sizes are clamped up to 1 unit
and the run emits a placement blockage whose rectangle is not contained in
the target box. This refutes containment as claimed for all percentages in
[0, 100] and all cells. -/
theorem c2_counterexample :
    (0 ≤ cfgTinyCore.areaPct ∧ cfgTinyCore.areaPct ≤ 100) ∧
    ∃ q ∈ (mainRun envTinyCore cfgTinyCore).reqs, ¬ rectInside q.rect envTinyCore.core := by
  constructor
  · constructor <;> norm_num [cfgTinyCore]
  · decide

/-- C2 (amended): every emitted cell rectangle is contained in the target
bounding box provided the unclamped cell sizes `int(len * scale / n)` are at
least 1 database unit on both axes (that is, the `max(1, ...)` clamps are
inactive); when a clamp engages, cells can extend past the target box, as
the counterexample shows. -/
theorem c2_cell_containment (core : Rect) (pct : ℚ) (grid : ℤ) (iw ih : ℕ)
    (hx : core.xMin ≤ core.xMax) (hy : core.yMin ≤ core.yMax)
    (hcw : 1 ≤ rawCellOf (core.xMax - core.xMin) pct (colsOf grid))
    (hch : 1 ≤ rawCellOf (core.yMax - core.yMin) pct (rowsOf grid iw ih))
    (r c : ℕ) (hr : r < (mkPlan core pct grid iw ih).rows)
    (hc : c < (mkPlan core pct grid iw ih).cols) :
    rectInside (cellRect (mkPlan core pct grid iw ih) r c) core := by
  have hcols1 : (1 : ℤ) ≤ colsOf grid := le_max_left _ _
  have hrows1 : (1 : ℤ) ≤ rowsOf grid iw ih := le_max_left _ _
  have hcint : (c : ℤ) < colsOf grid := by
    have h2 : c < (colsOf grid).toNat := hc
    omega
  have hrint : (r : ℤ) < rowsOf grid iw ih := by
    have h2 : r < (rowsOf grid iw ih).toNat := hr
    omega
  obtain ⟨hx1, hx2⟩ :=
    axisContained core.xMin core.xMax pct (colsOf grid) hx hcols1 hcw c hcint
  obtain ⟨hy1, hy2⟩ :=
    axisContained core.yMin core.yMax pct (rowsOf grid iw ih) hy hrows1 hch r hrint
  simp only [rectInside, cellRect, mkPlan]
  refine ⟨by linarith [hx1], by linarith [hx2], by linarith [hy1], by linarith [hy2]⟩

/-- Witness for C2 (amended): with a 1000x1000 target box, 10 columns and
100 percent area, the last cell of the 10x10 grid is contained in the box. -/
theorem c2_cell_containment_witness :
    rectInside (cellRect (mkPlan ⟨0, 0, 1000, 1000⟩ 100 10 1 1) 9 9) ⟨0, 0, 1000, 1000⟩ :=
  c2_cell_containment ⟨0, 0, 1000, 1000⟩ 100 10 1 1 (by norm_num) (by norm_num)
    (by decide) (by decide) 9 9 (by decide) (by decide)
